import Mathlib

/-!
Verification of the gemara2ampel policy transformation and merge engine.

This file shallowly embeds the Go sources of the `ampel` package:
the merge/reconciliation engine (`MergePolicy`, `mergeTenet`), the
structural mapper (`assessmentPlanToTenets`, `buildMetadata`,
`buildContextFromParameters`, `parameterToContextVal`,
`extractPolicyIdFromReference`, catalog lookup) and the expression
generator (`GenerateCELFromMethod`, `InferAttestationType`,
`selectTemplateFromEvidence`, `generateBasicCEL`, `ScopeFilterToCEL`).

Strings are modelled as Lean `String`; the low-level operations the Go
code takes from the standard library (`strings.Split`, `strings.Contains`,
`strings.TrimSpace`, `strconv.ParseInt`, `path.Base`, `path.Ext`,
`text/template` substitution) are implemented here over `List Char`
following their documented behavior.  Go byte lengths are modelled as
character counts (identical on ASCII data).
-/

namespace Ampel

/-! ### String primitives (Go standard library behavior) -/

/-- Decides whether `p` is an initial segment of `l` (used by substring search). -/
def startsWithL : List Char → List Char → Bool
  | [], _ => true
  | _ :: _, [] => false
  | a :: as, b :: bs => a == b && startsWithL as bs

/-- Go `strings.Contains s sub`: `sub` occurs contiguously in `s`. -/
def containsSub : List Char → List Char → Bool
  | s, sub =>
    if startsWithL sub s then true
    else match s with
      | [] => false
      | _ :: rest => containsSub rest sub

/-- Go `strings.Contains` on `String`s. -/
def goContains (s sub : String) : Bool := containsSub s.data sub.data

/-- Go `strings.Split` with a one-character separator: splits around every
occurrence of `c`, keeping empty fields; the result is never empty. -/
def splitOnChar (c : Char) : List Char → List (List Char)
  | [] => [[]]
  | a :: as =>
    if a == c then [] :: splitOnChar c as
    else match splitOnChar c as with
      | [] => [[a]]
      | p :: ps => (a :: p) :: ps

/-- The suffix of `l` strictly after the last occurrence of `c`
(all of `l` when `c` does not occur).  Used as the specification-side
reading of "the path after the last separator". -/
def afterLastChar (c : Char) (l : List Char) : List Char :=
  (l.reverse.takeWhile (fun a => a != c)).reverse

/-- Go `unicode.IsSpace`, restricted to the ASCII space characters that
`strings.TrimSpace` strips on ASCII data. -/
def goIsSpace (c : Char) : Bool :=
  c == ' ' || c == '\t' || c == '\n' || c == '\x0d' || c == '\x0b' || c == '\x0c'

/-- Go `strings.TrimSpace`. -/
def goTrimSpace (s : String) : String :=
  ⟨((s.data.dropWhile goIsSpace).reverse.dropWhile goIsSpace).reverse⟩

/-- Go `strings.ToLower`, ASCII range (the keyword tables are ASCII). -/
def goToLower (s : String) : String := ⟨s.data.map Char.toLower⟩

/-- Go `strings.TrimSuffix s suffix`. -/
def goTrimSuffix (s suffix : String) : String :=
  if suffix.data.length ≤ s.data.length &&
      startsWithL suffix.data.reverse s.data.reverse then
    ⟨s.data.take (s.data.length - suffix.data.length)⟩
  else s

/-- Reads a nonempty all-decimal-digit character list as a natural number. -/
def digitsToNat : List Char → Option Nat
  | [] => none
  | l => l.foldl (fun acc c =>
      match acc with
      | none => none
      | some n => if c.isDigit then some (n * 10 + (c.toNat - 48)) else none)
      (some 0)

/-- Go `strconv.ParseInt(s, 10, 64)`: optional sign, decimal digits, and a
64-bit range check (the callers treat a range error as a parse failure). -/
def parseGoInt64 (s : String) : Option Int :=
  let (neg, digits) :=
    match s.data with
    | '-' :: rest => (true, rest)
    | '+' :: rest => (false, rest)
    | l => (false, l)
  match digitsToNat digits with
  | none => none
  | some n =>
    let v : Int := if neg then -(n : Int) else (n : Int)
    if -(2 ^ 63) ≤ v ∧ v ≤ 2 ^ 63 - 1 then some v else none

/-- Go `path.Base`: the last element of a slash-separated path, after
removing trailing slashes; `"."` for the empty path, `"/"` for all-slash. -/
def pathBase (p : String) : String :=
  if p = "" then "."
  else
    let trimmed := (p.data.reverse.dropWhile (fun c => c == '/')).reverse
    let last := (trimmed.reverse.takeWhile (fun c => c != '/')).reverse
    if last = [] then "/" else ⟨last⟩

/-- Go `path.Ext`: the suffix of the final slash-separated element starting
at its final dot, or `""` when that element has no dot. -/
def pathExt (p : String) : String :=
  let revTail := p.data.reverse.takeWhile (fun c => c != '/')
  if revTail.contains '.' then
    ⟨'.' :: (revTail.takeWhile (fun c => c != '.')).reverse⟩
  else ""

/-! ### Ampel policy data model

Mirrors the repository's `Policy`/`Tenet`/`Meta`/... records (the local
mirror of `github.com/carabiner-dev/policy/api/v1` in the `ampel`
package).  Go pointer fields become `Option`, Go maps become association
lists (Go map iteration only happens where noted), `interface{}` values
are modelled by a small JSON-like value type. -/

/-- JSON-like runtime value (Go `interface{}` / `structpb.Value` payloads
that actually occur in this code base: strings, numbers, booleans, null). -/
inductive JSONValue where
  | str (s : String)
  | num (n : Int)
  | boolean (b : Bool)
  | null
deriving DecidableEq, Repr

/-- Ampel `PredicateSpec`: predicate type URIs plus an optional load limit. -/
structure PredicateSpec where
  types : List String
  limit : Int
deriving DecidableEq, Repr

/-- Ampel `Output`: a CEL expression plus its runtime-populated value. -/
structure Output where
  code : String
  value : Option JSONValue
deriving DecidableEq, Repr

/-- Ampel tenet `Error` block. -/
structure TenetError where
  message : String
  guidance : String
deriving DecidableEq, Repr

/-- Ampel tenet `Assessment` block. -/
structure Assessment where
  message : String
deriving DecidableEq, Repr

/-- Ampel `Tenet`. -/
structure Tenet where
  id : String
  title : String
  runtime : String
  predicates : Option PredicateSpec
  code : String
  outputs : List (String × Output)
  error : Option TenetError
  assessment : Option Assessment
deriving DecidableEq, Repr

/-- Ampel `ContextVal`. -/
structure ContextVal where
  type : String
  required : Option Bool
  default : Option JSONValue
  value : Option JSONValue
  description : Option String
deriving DecidableEq, Repr

/-- Ampel `Control` reference in policy metadata. -/
structure Control where
  id : String
  title : String
  framework : String
  class_ : String
  item : String
deriving DecidableEq, Repr

/-- Ampel policy `Meta`.  In Go this hangs off the policy as a pointer that
every constructor in the repository populates; it is inlined here. -/
structure Meta where
  runtime : String
  description : String
  assertMode : String
  controls : List Control
  version : Int
  enforce : String
deriving DecidableEq, Repr

/-- Ampel signer `Identity` (opaque payload for the merge claims). -/
structure Identity where
  type : String
  issuer : String
  identity : String
  publicKey : String
deriving DecidableEq, Repr

/-- Ampel `Policy`. -/
structure Policy where
  id : String
  meta : Meta
  context : List (String × ContextVal)
  identities : List Identity
  predicates : Option PredicateSpec
  tenets : List Tenet
deriving DecidableEq, Repr

/-- Modelled from the spec: structural validation of a generated or merged
policy (`v1.Policy.Validate` lives in the external
`github.com/carabiner-dev/policy` module, outside this repository).  Per
the spec's error-handling design, a policy is structurally incomplete
when it has no tenets or a tenet is missing its expression. -/
def validatePolicy (p : Policy) : Bool :=
  !p.tenets.isEmpty && p.tenets.all (fun t => t.code != "")

/-! ### Merge/reconciliation engine (`MergePolicy`, `mergeTenet`) -/

/-- Merge statistics returned by `MergePolicy`. -/
structure MergeStats where
  tenetsPreserved : Nat
  tenetsAdded : Nat
  tenetsRemoved : Nat
deriving DecidableEq, Repr

/-- The Go lookup map `existingTenets` is built by inserting every tenet of
the existing policy keyed by id, later insertions overwriting earlier
ones; a lookup therefore returns the last tenet with the given id. -/
def lookupTenet (ts : List Tenet) (i : String) : Option Tenet :=
  ts.foldl (fun acc t => if t.id == i then some t else acc) none

/-- Merges a single tenet: id, title and runtime come from the generated
tenet, code and outputs are preserved from the existing tenet; the
remaining fields of the Go struct literal take their zero values. -/
def mergeTenet (existing generated : Tenet) : Tenet :=
  { id := generated.id
    title := generated.title
    runtime := generated.runtime
    predicates := none
    code := existing.code
    outputs := existing.outputs
    error := none
    assessment := none }

/-- The per-tenet loop of `MergePolicy`: walks the generated tenets in
order, merging those whose id is found among the existing tenets and
adding the rest; returns the merged tenet list with the preserved and
added counters. -/
def mergeTenetsLoop (lookup : String → Option Tenet) : List Tenet → List Tenet × Nat × Nat
  | [] => ([], 0, 0)
  | g :: gs =>
    let rest := mergeTenetsLoop lookup gs
    match lookup g.id with
    | some e => (mergeTenet e g :: rest.1, rest.2.1 + 1, rest.2.2)
    | none => (g :: rest.1, rest.2.1, rest.2.2 + 1)

/-- The merge computation of `MergePolicy` before validation: the merged
policy starts from the generated policy's id, meta and context (the
other policy-level fields of the Go struct literal take zero values),
tenets are produced by `mergeTenetsLoop`, and the removed counter counts
the distinct existing ids absent from the generated policy. -/
def mergePolicyCore (existing generated : Policy) : Policy × MergeStats :=
  let res := mergeTenetsLoop (lookupTenet existing.tenets) generated.tenets
  let genIds := generated.tenets.map (fun t => t.id)
  let removed :=
    (((existing.tenets.map (fun t => t.id)).dedup).filter
      (fun i => !genIds.contains i)).length
  ({ id := generated.id
     meta := generated.meta
     context := generated.context
     identities := []
     predicates := none
     tenets := res.1 },
   { tenetsPreserved := res.2.1
     tenetsAdded := res.2.2
     tenetsRemoved := removed })

/-- `MergePolicy existing generated`: performs the merge and validates the
result; on validation failure Go returns a nil policy together with the
statistics and an error, modelled as `none` in the first component. -/
def MergePolicy (existing generated : Policy) : Option Policy × MergeStats :=
  let res := mergePolicyCore existing generated
  if validatePolicy res.1 then (some res.1, res.2) else (none, res.2)

/-! ### Gemara source records (shapes as consumed by the transformer) -/

/-- Gemara `AcceptedMethod` (fields used by the transformer). -/
structure AcceptedMethod where
  type : String
  description : String
deriving DecidableEq, Repr

/-- Gemara `Parameter` (fields used by the transformer). -/
structure Parameter where
  id : String
  label : String
  description : String
  acceptedValues : List String
deriving DecidableEq, Repr

/-- Gemara `AssessmentPlan` (fields used by the transformer). -/
structure AssessmentPlan where
  id : String
  requirementId : String
  evidenceRequirements : String
  parameters : List Parameter
  evaluationMethods : List AcceptedMethod
deriving DecidableEq, Repr

/-- Gemara `AssessmentRequirement`. -/
structure AssessmentRequirement where
  id : String
  text : String
deriving DecidableEq, Repr

/-- Gemara `Control` inside a catalog. -/
structure GemaraControl where
  id : String
  title : String
  family : String
  assessmentRequirements : List AssessmentRequirement
deriving DecidableEq, Repr

/-- Gemara control `Family`. -/
structure GemaraFamily where
  id : String
  title : String
deriving DecidableEq, Repr

/-- Gemara `Catalog` (fields used by the lookup). -/
structure Catalog where
  controls : List GemaraControl
  families : List GemaraFamily
deriving DecidableEq, Repr

/-- Gemara scope `Dimensions`. -/
structure Dimensions where
  technologies : List String
  geopolitical : List String
  sensitivity : List String
  groups : List String
deriving DecidableEq, Repr

/-- Gemara Layer-3 `Policy` (fields used by the transformer). -/
structure GemaraPolicy where
  metadataId : String
  metadataDescription : String
  metadataVersion : String
  assessmentPlans : List AssessmentPlan
  scopeIn : Dimensions
  importPolicies : List String
deriving DecidableEq, Repr

/-- Transformer options (fields used by the embedded functions). -/
structure TransformOptions where
  catalog : Option Catalog
  celTemplates : List (String × String)
  includeScopeFilters : Bool
  defaultRule : String
deriving Repr

/-! ### Expression templates and `text/template` substitution -/

/-- Opening brace character (written via its code point). -/
def braceL : Char := Char.ofNat 123

/-- Closing brace character (written via its code point). -/
def braceR : Char := Char.ofNat 125

/-- Doubled opening action delimiter of a Go template. -/
def actionOpen : List Char := [braceL, braceL]

/-- Doubled closing action delimiter of a Go template. -/
def actionClose : List Char := [braceR, braceR]

/-- One parsed element of a template: literal text or a field action. -/
inductive TItem where
  | lit (s : List Char)
  | field (name : List Char)
deriving DecidableEq, Repr

/-- Splits a character list at the first doubled closing delimiter,
returning the action body and the remainder after the delimiter. -/
def splitAtClose : List Char → Option (List Char × List Char)
  | [] => none
  | [_] => none
  | a :: b :: rest =>
    if a == braceR && b == braceR then some ([], rest)
    else match splitAtClose (b :: rest) with
      | none => none
      | some (body, rem) => some (a :: body, rem)

/-- An action body must be a dot followed by a nonempty field name. -/
def parseFieldName : List Char → Option (List Char)
  | '.' :: rest =>
    if !rest.isEmpty && rest.all (fun c => c.isAlphanum) then some rest else none
  | _ => none

/-- Fuel-driven template scanner; any fuel above the input length is
sufficient since every step consumes at least one character. -/
def parseTemplateAux : Nat → List Char → Option (List TItem)
  | 0, _ => none
  | _ + 1, [] => some []
  | fuel + 1, a :: rest =>
    match rest with
    | [] => some [.lit [a]]
    | b :: rest2 =>
      if a == braceL && b == braceL then
        match splitAtClose rest2 with
        | none => none
        | some (body, rem) =>
          match parseFieldName body, parseTemplateAux fuel rem with
          | some nm, some items => some (.field nm :: items)
          | _, _ => none
      else
        match parseTemplateAux fuel (b :: rest2) with
        | some items => some (.lit [a] :: items)
        | none => none

/-- Association-list lookup standing in for a Go map read. -/
def lookupAssoc (l : List (String × String)) (k : String) : Option String :=
  match l.find? (fun p => p.1 == k) with
  | some p => some p.2
  | none => none

/-- Association-list insert standing in for a Go map write: replaces the
value at an existing key, appends otherwise. -/
def assocPut (l : List (String × String)) (k v : String) : List (String × String) :=
  if l.any (fun p => p.1 == k) then
    l.map (fun p => if p.1 == k then (k, v) else p)
  else l ++ [(k, v)]

/-- Renders parsed template items; a field whose key is absent from the
parameter map renders as `<no value>`, matching Go's `text/template`
behavior on map data. -/
def execItems (params : List (String × String)) : List TItem → List Char
  | [] => []
  | .lit s :: rest => s ++ execItems params rest
  | .field nm :: rest =>
    (match lookupAssoc params ⟨nm⟩ with
     | some v => v.data
     | none => "<no value>".data) ++ execItems params rest

/-- Go `GenerateCEL`: parses the template (the `text/template` subset the
repository's templates use: literal text and simple field actions),
substitutes the named parameters and trims surrounding whitespace; a
template that fails to parse yields an error. -/
def GenerateCEL (templateStr : String) (params : List (String × String)) :
    Except String String :=
  match parseTemplateAux (templateStr.data.length + 1) templateStr.data with
  | none => .error "failed to parse CEL template"
  | some items => .ok (goTrimSpace ⟨execItems params items⟩)

/-- The fixed built-in CEL template table (`DefaultCELTemplates`). -/
def DefaultCELTemplates : List (String × String) :=
  [("slsa-provenance-builder",
    "attestation.predicateType == \"https://slsa.dev/provenance/v1\" && attestation.predicate.builder.id == \"\x7b\x7b.BuilderId\x7d\x7d\""),
   ("slsa-provenance-builder-in",
    "attestation.predicateType == \"https://slsa.dev/provenance/v1\" && attestation.predicate.builder.id in [\x7b\x7b.BuilderIds\x7d\x7d]"),
   ("slsa-provenance-materials",
    "attestation.predicateType == \"https://slsa.dev/provenance/v1\" && all(attestation.predicate.materials, m, m.digest.sha256 != \"\")"),
   ("slsa-provenance-buildtype",
    "attestation.predicateType == \"https://slsa.dev/provenance/v1\" && attestation.predicate.buildType == \"\x7b\x7b.BuildType\x7d\x7d\""),
   ("sbom-present",
    "attestation.predicateType == \"https://spdx.dev/Document\" || attestation.predicateType == \"https://cyclonedx.org/bom\""),
   ("sbom-spdx", "attestation.predicateType == \"https://spdx.dev/Document\""),
   ("sbom-cyclonedx", "attestation.predicateType == \"https://cyclonedx.org/bom\""),
   ("vulnerability-scan-no-critical",
    "attestation.predicateType == \"https://in-toto.io/Statement/v0.1\" && attestation.predicate.scanner.result.summary.critical == 0"),
   ("vulnerability-scan-threshold",
    "attestation.predicateType == \"https://in-toto.io/Statement/v0.1\" && attestation.predicate.scanner.result.summary.critical == 0 && attestation.predicate.scanner.result.summary.high < \x7b\x7b.MaxHigh\x7d\x7d"),
   ("vulnerability-scanner",
    "attestation.predicateType == \"https://in-toto.io/Statement/v0.1\" && attestation.predicate.scanner.vendor == \"\x7b\x7b.Scanner\x7d\x7d\""),
   ("generic-predicate-type", "attestation.predicateType == \"\x7b\x7b.PredicateType\x7d\x7d\""),
   ("generic-field-equals", "attestation.predicate.\x7b\x7b.FieldPath\x7d\x7d == \"\x7b\x7b.ExpectedValue\x7d\x7d\""),
   ("generic-field-in", "attestation.predicate.\x7b\x7b.FieldPath\x7d\x7d in [\x7b\x7b.AllowedValues\x7d\x7d]")]

/-- The fixed method-type to default template-name table. -/
def MethodTypeToCELTemplate : List (String × String) :=
  [("automated", "generic-field-equals"),
   ("gate", "generic-predicate-type"),
   ("behavioral", "generic-field-equals"),
   ("autoremediation", "generic-field-equals")]

/-! ### Attestation-type inference and template selection -/

/-- `InferAttestationType`: keyword classification of an evidence string
into a single predicate-type URL (the fixed keyword slices of the Go
loops are transliterated to disjunctions, preserving order). -/
def InferAttestationType (evidenceReq : String) : String :=
  let lowerReq := goToLower evidenceReq
  if goContains lowerReq "slsa" || goContains lowerReq "provenance" ||
      goContains lowerReq "builder" || goContains lowerReq "build provenance" then
    "https://slsa.dev/provenance/v1"
  else if goContains lowerReq "spdx" then "https://spdx.dev/Document"
  else if goContains lowerReq "cyclonedx" then "https://cyclonedx.org/bom"
  else if goContains lowerReq "sbom" || goContains lowerReq "software bill of materials" then
    "https://spdx.dev/Document"
  else if goContains lowerReq "vulnerabilit" || goContains lowerReq "cve" ||
      goContains lowerReq "security scan" || goContains lowerReq "vuln scan" then
    "https://in-toto.io/Statement/v0.1"
  else if goContains lowerReq "in-toto" || goContains lowerReq "attestation" then
    "https://in-toto.io/Statement/v0.1"
  else ""

/-- `selectTemplateFromEvidence`: ordered keyword checks selecting a
template name; a category whose sub-checks all fail falls through to the
next category, exactly as the Go conditionals do. -/
def selectTemplateFromEvidence (evidenceReq : String) : String :=
  let lowerReq := goToLower evidenceReq
  let slsa := goContains lowerReq "slsa" || goContains lowerReq "provenance"
  let sbom := goContains lowerReq "sbom" || goContains lowerReq "software bill of materials"
  let vuln := goContains lowerReq "vulnerabilit" || goContains lowerReq "cve"
  if slsa && goContains lowerReq "builder" then "slsa-provenance-builder"
  else if slsa && goContains lowerReq "material" then "slsa-provenance-materials"
  else if slsa && (goContains lowerReq "buildtype" || goContains lowerReq "build type") then
    "slsa-provenance-buildtype"
  else if sbom then
    if goContains lowerReq "spdx" then "sbom-spdx"
    else if goContains lowerReq "cyclonedx" then "sbom-cyclonedx"
    else "sbom-present"
  else if vuln && (goContains lowerReq "critical" || goContains lowerReq "no critical") then
    "vulnerability-scan-no-critical"
  else if vuln && goContains lowerReq "threshold" then "vulnerability-scan-threshold"
  else if vuln && goContains lowerReq "scanner" then "vulnerability-scanner"
  else ""

/-- `generateBasicCEL`: the fallback when no template matches — a predicate
type equality when one was inferred, otherwise a `true` no-op annotated
with the evidence text. -/
def generateBasicCEL (attestationType evidenceReq : String) :
    Except String (String × List String) :=
  if attestationType != "" then
    .ok ("attestation.predicateType == \"" ++ attestationType ++ "\"", [attestationType])
  else
    .ok ("true /* TODO: Implement verification logic based on: " ++ evidenceReq ++ " */", [])

/-- `GenerateCELFromMethod`: infers the predicate type, selects a template
by evidence keywords falling back to the method-type table, instantiates
it when present in the supplied template set, and otherwise delegates to
the basic fallback generator. -/
def GenerateCELFromMethod (method : AcceptedMethod) (evidenceReq : String)
    (params : List (String × String)) (templates : List (String × String)) :
    Except String (String × List String) :=
  let attestationType := InferAttestationType evidenceReq
  let attestationTypes := if attestationType != "" then [attestationType] else []
  let sel := selectTemplateFromEvidence evidenceReq
  let templateName :=
    if sel == "" then
      match lookupAssoc MethodTypeToCELTemplate method.type with
      | some d => d
      | none => ""
    else sel
  match lookupAssoc templates templateName with
  | none => generateBasicCEL attestationType evidenceReq
  | some templateStr =>
    match GenerateCEL templateStr params with
    | .error e => .error e
    | .ok cel => .ok (cel, attestationTypes)

/-! ### Scope compiler -/

/-- Go `strings.ReplaceAll(s, " ", "-")`. -/
def spacesToHyphens (s : String) : String :=
  ⟨s.data.map (fun c => if c == ' ' then '-' else c)⟩

/-- `normalizeRegion`: fixed name-to-code table, else lower-case. -/
def normalizeRegion (region : String) : String :=
  let lower := goToLower region
  if lower == "united states" then "us"
  else if lower == "european union" then "eu"
  else if lower == "canada" then "ca"
  else if lower == "united kingdom" then "uk"
  else if lower == "california" then "us-ca"
  else lower

/-- `ScopeFilterToCEL`: emits one `in [...]` clause per non-empty scope
dimension with per-dimension normalization, joined with `&&`. -/
def ScopeFilterToCEL (dimensions : Dimensions) : String :=
  let quote := fun (v : String) => "\"" ++ v ++ "\""
  let filters :=
    (if dimensions.technologies.length > 0 then
      ["subject.type in [" ++ String.intercalate ", "
        (dimensions.technologies.map (fun tech => quote (goToLower (spacesToHyphens tech)))) ++ "]"]
     else []) ++
    (if dimensions.geopolitical.length > 0 then
      ["subject.annotations.region in [" ++ String.intercalate ", "
        (dimensions.geopolitical.map (fun region => quote (normalizeRegion region))) ++ "]"]
     else []) ++
    (if dimensions.sensitivity.length > 0 then
      ["subject.annotations.classification in [" ++ String.intercalate ", "
        (dimensions.sensitivity.map (fun s => quote (goToLower s))) ++ "]"]
     else []) ++
    (if dimensions.groups.length > 0 then
      ["subject.annotations.group in [" ++ String.intercalate ", "
        (dimensions.groups.map quote) ++ "]"]
     else [])
  if filters.length == 0 then "" else String.intercalate " && " filters

/-! ### Catalog enrichment lookup -/

/-- `CatalogEnrichment`: resolved control, requirement and family. -/
structure CatalogEnrichment where
  control : Option GemaraControl
  requirement : Option AssessmentRequirement
  family : Option GemaraFamily
deriving DecidableEq, Repr

/-- First family with the given id, if any. -/
def findFamily (families : List GemaraFamily) (famId : String) : Option GemaraFamily :=
  families.find? (fun f => f.id == famId)

/-- `lookupRequirement`: first control whose requirement list contains the
id, paired with that requirement and the control's family (the Go nil
catalog case is handled by the caller's `Option`). -/
def lookupRequirement (catalog : Catalog) (requirementID : String) :
    Option CatalogEnrichment :=
  if requirementID == "" then none
  else
    match catalog.controls.find?
        (fun c => c.assessmentRequirements.any (fun r => r.id == requirementID)) with
    | none => none
    | some control =>
      match control.assessmentRequirements.find? (fun r => r.id == requirementID) with
      | none => none
      | some req =>
        some { control := some control, requirement := some req,
               family := findFamily catalog.families control.family }

/-- `enrichTenetTitle`: prefers the resolved requirement text, then the
control title, then the provided default title. -/
def enrichTenetTitle (enrichment : Option CatalogEnrichment) (defaultTitle : String) :
    String :=
  match enrichment with
  | none => defaultTitle
  | some e =>
    let fromControl :=
      match e.control with
      | some c => if c.title != "" then c.title else defaultTitle
      | none => defaultTitle
    match e.requirement with
    | some r => if r.text != "" then r.text else fromControl
    | none => fromControl

/-! ### Structural mapper pieces -/

/-- `isAutomatedMethod`: membership in the fixed automatable-type table. -/
def isAutomatedMethod (methodType : String) : Bool :=
  methodType == "automated" || methodType == "gate" ||
  methodType == "behavioral" || methodType == "autoremediation"

/-- `getTenetName`: method description, else the trimmed evidence
requirement truncated to 80 characters with an ellipsis, else the
method-type fallback. -/
def getTenetName (method : AcceptedMethod) (evidenceReq : String) : String :=
  if method.description != "" then method.description
  else if evidenceReq != "" then
    let name := goTrimSpace evidenceReq
    if name.data.length > 80 then (⟨name.data.take 77⟩ : String) ++ "..." else name
  else method.type ++ " verification"

/-- `buildCELParams`: context references (and quoted value lists under a
`-list` suffix) for the CEL templates, keyed by parameter id. -/
def buildCELParams (parameters : List Parameter) : List (String × String) :=
  parameters.foldl (fun acc param =>
    let contextRef := "context[\"" ++ param.id ++ "\"]"
    if param.acceptedValues.length > 0 then
      let acc1 := assocPut acc param.id contextRef
      if param.acceptedValues.length > 1 then
        assocPut acc1 (param.id ++ "-list")
          (String.intercalate ", " (param.acceptedValues.map (fun v => "\"" ++ v ++ "\"")))
      else acc1
    else assocPut acc param.id contextRef) []

/-- The per-method loop of `assessmentPlanToTenets`: non-automatable
methods are skipped without consuming an ordinal; each automatable
method yields one tenet whose id appends the running ordinal, and the
plan's enrichment is recorded once per emitted tenet. -/
def planMethodsLoop (plan : AssessmentPlan) (policy : GemaraPolicy)
    (options : TransformOptions) (enrichment : Option CatalogEnrichment) :
    List AcceptedMethod → Nat → Except String (List Tenet × List CatalogEnrichment)
  | [], _ => .ok ([], [])
  | method :: ms, methodIndex =>
    if isAutomatedMethod method.type then
      let celParams := buildCELParams plan.parameters
      match GenerateCELFromMethod method plan.evidenceRequirements celParams
          options.celTemplates with
      | .error e => .error e
      | .ok (celCode0, attestationTypes) =>
        let celCode :=
          if options.includeScopeFilters then
            let scopeFilter := ScopeFilterToCEL policy.scopeIn
            if scopeFilter != "" then "(" ++ scopeFilter ++ ") && (" ++ celCode0 ++ ")"
            else celCode0
          else celCode0
        let title := enrichTenetTitle enrichment (getTenetName method plan.evidenceRequirements)
        let tenet : Tenet :=
          { id := plan.requirementId ++ "-" ++ plan.id ++ "-" ++ toString methodIndex
            title := title
            runtime := "cel@v14.0"
            predicates :=
              if attestationTypes.length > 0 then
                some { types := attestationTypes, limit := 0 }
              else none
            code := celCode
            outputs := []
            error := none
            assessment := none }
        match planMethodsLoop plan policy options enrichment ms (methodIndex + 1) with
        | .error e => .error e
        | .ok (ts, es) =>
          .ok (tenet :: ts, (match enrichment with | some e' => e' :: es | none => es))
    else planMethodsLoop plan policy options enrichment ms methodIndex

/-- The enrichment resolved at the top of `assessmentPlanToTenets`: a
catalog lookup when a catalog was supplied and the plan names a
requirement id. -/
def planEnrichment (plan : AssessmentPlan) (options : TransformOptions) :
    Option CatalogEnrichment :=
  match options.catalog with
  | some catalog =>
    if plan.requirementId != "" then lookupRequirement catalog plan.requirementId
    else none
  | none => none

/-- `assessmentPlanToTenets`: resolves the catalog enrichment for the
plan's requirement id when a catalog was supplied, then runs the
per-method loop starting at ordinal 0. -/
def assessmentPlanToTenets (plan : AssessmentPlan) (policy : GemaraPolicy)
    (options : TransformOptions) : Except String (List Tenet × List CatalogEnrichment) :=
  planMethodsLoop plan policy options (planEnrichment plan options)
    plan.evaluationMethods 0

/-- `parameterToContextVal`: string-typed context entry whose description
comes from the parameter description or label; the first accepted value
becomes both default and current value, and the required flag is set
exactly when no accepted values exist.  The Go error path only concerns
`structpb.NewValue`, which cannot fail on the string inputs passed here,
so the embedding is total. -/
def parameterToContextVal (param : Parameter) : ContextVal :=
  let description :=
    if param.description != "" then some param.description
    else if param.label != "" then some param.label
    else none
  match param.acceptedValues with
  | v :: _ =>
    { type := "string", required := some false,
      default := some (.str v), value := some (.str v), description := description }
  | [] =>
    { type := "string", required := some true,
      default := none, value := none, description := description }

/-- Collects the parameters of all assessment plans keyed by id, first
occurrence winning, in first-occurrence order. -/
def collectParameters (plans : List AssessmentPlan) : List Parameter :=
  plans.foldl (fun acc plan =>
    plan.parameters.foldl (fun acc2 param =>
      if acc2.any (fun p => p.id == param.id) then acc2 else acc2 ++ [param]) acc) []

/-- `buildContextFromParameters`: one context entry per distinct parameter
id.  The Go version iterates an intermediate map in unspecified order;
as the keys are distinct the resulting context map is determined, and it
is materialized here in first-occurrence order. -/
def buildContextFromParameters (policy : GemaraPolicy) : List (String × ContextVal) :=
  (collectParameters policy.assessmentPlans).map (fun p => (p.id, parameterToContextVal p))

/-- The version computation of `buildMetadata`: 0 for an empty version
string, otherwise the first dot-delimited segment parsed as a base-10
64-bit integer with 0 kept on parse failure. -/
def goMajorVersion (versionString : String) : Int :=
  if versionString != "" then
    match splitOnChar '.' versionString.data with
    | [] => 0
    | p :: _ =>
      match parseGoInt64 ⟨p⟩ with
      | some v => v
      | none => 0
  else 0

/-- `buildMetadata`: writes the parsed major version into the target
policy's metadata. -/
def buildMetadata (policy : GemaraPolicy) (ampelPolicy : Policy) : Policy :=
  { ampelPolicy with
    meta := { ampelPolicy.meta with version := goMajorVersion policy.metadataVersion } }

/-- `extractPolicyIdFromReference`: with a `#` present, the last
`#`-separated part's base filename with its extension stripped;
otherwise the whole reference. -/
def extractPolicyIdFromReference (reference : String) : String :=
  let parts := splitOnChar '#' reference.data
  if parts.length > 1 then
    let policyPath : String := ⟨parts.getLastD []⟩
    let base := pathBase policyPath
    let ext := pathExt base
    if ext != "" then goTrimSuffix base ext else base
  else reference

/-- Specification-side reading of `extractPolicyIdFromReference`: the text
strictly after the last `#`, taken as a path whose base filename is
stripped of its extension; references without `#` pass through. -/
def extractPolicyIdSpec (reference : String) : String :=
  if reference.data.contains '#' then
    let base := pathBase ⟨afterLastChar '#' reference.data⟩
    let ext := pathExt base
    if ext != "" then goTrimSuffix base ext else base
  else reference

/-! ### Sample values used by witnesses and counterexamples -/

/-- Sample metadata block. -/
def sampleMeta : Meta :=
  { runtime := "cel@v14.0", description := "d", assertMode := "AND",
    controls := [], version := 1, enforce := "" }

/-- Clears the tenet fields that `mergeTenet` leaves at their zero values. -/
def clearMergeDropped (t : Tenet) : Tenet :=
  { t with predicates := none, error := none, assessment := none }

/-- Clears the policy-level fields that the `MergePolicy` struct literal
leaves at their zero values, and applies `clearMergeDropped` tenet-wise. -/
def clearMergeDroppedPolicy (p : Policy) : Policy :=
  { p with identities := [], predicates := none,
           tenets := p.tenets.map clearMergeDropped }

/-! ### Lemmas about the existing-tenet lookup -/

theorem foldl_lookup_eq (i : String) (ts : List Tenet) (acc : Option Tenet) :
    List.foldl (fun a t => if t.id == i then some t else a) acc ts =
      (lookupTenet ts i).elim acc some := by
  induction ts generalizing acc with
  | nil => rfl
  | cons t ts ih =>
    show List.foldl _ (if t.id == i then some t else acc) ts = _
    rw [ih]
    have h2 : lookupTenet (t :: ts) i =
        (lookupTenet ts i).elim (if t.id == i then some t else none) some := by
      show List.foldl _ (if t.id == i then some t else none) ts = _
      rw [ih]
    rw [h2]
    cases hl : lookupTenet ts i with
    | some e => simp
    | none => by_cases hid : t.id == i <;> simp [hid]

theorem lookupTenet_cons (t : Tenet) (ts : List Tenet) (i : String) :
    lookupTenet (t :: ts) i =
      (lookupTenet ts i).elim (if t.id == i then some t else none) some := by
  show List.foldl _ (if t.id == i then some t else none) ts = _
  rw [foldl_lookup_eq]

theorem lookupTenet_eq_some (ts : List Tenet) (i : String) :
    ∀ e, lookupTenet ts i = some e → e ∈ ts ∧ e.id = i := by
  intro e h
  induction ts generalizing e with
  | nil => simp [lookupTenet] at h
  | cons t ts ih =>
    rw [lookupTenet_cons] at h
    cases hl : lookupTenet ts i with
    | some e2 =>
      rw [hl] at h
      simp only [Option.elim] at h
      obtain ⟨h1, h2⟩ := ih e2 hl
      cases h
      exact ⟨List.mem_cons_of_mem _ h1, h2⟩
    | none =>
      rw [hl] at h
      simp only [Option.elim] at h
      by_cases hid : t.id == i
      · rw [if_pos hid] at h
        cases h
        exact ⟨List.mem_cons_self _ _, by simpa using hid⟩
      · rw [if_neg hid] at h
        cases h

theorem lookupTenet_isSome_iff (ts : List Tenet) (i : String) :
    (lookupTenet ts i).isSome = true ↔ i ∈ ts.map Tenet.id := by
  induction ts with
  | nil => simp [lookupTenet]
  | cons t ts ih =>
    rw [lookupTenet_cons]
    cases hl : lookupTenet ts i with
    | some e =>
      have : i ∈ ts.map Tenet.id := ih.mp (by rw [hl]; rfl)
      simp [this]
    | none =>
      have hni : i ∉ ts.map Tenet.id := by
        intro hmem
        have := ih.mpr hmem
        rw [hl] at this
        simp at this
      by_cases hid : t.id == i
      · simp only [Option.elim, if_pos hid]
        have : t.id = i := by simpa using hid
        simp [this]
      · simp only [Option.elim, if_neg hid]
        have hne : ¬ t.id = i := by simpa using hid
        simp only [hl, Option.isSome_none, List.map_cons, List.mem_cons]
        constructor
        · intro hfalse
          cases hfalse
        · rintro (h | h)
          · exact absurd h.symm hne
          · exact absurd h hni

theorem lookupTenet_self (ts : List Tenet) (hnd : (ts.map Tenet.id).Nodup)
    (t : Tenet) (ht : t ∈ ts) : lookupTenet ts t.id = some t := by
  induction ts with
  | nil => cases ht
  | cons u ts ih =>
    rw [List.map_cons, List.nodup_cons] at hnd
    rw [lookupTenet_cons]
    rcases List.mem_cons.mp ht with h | h
    · subst h
      have hnone : lookupTenet ts t.id = none := by
        cases hl : lookupTenet ts t.id with
        | none => rfl
        | some e =>
          exact absurd ((lookupTenet_isSome_iff ts t.id).mp (by rw [hl]; rfl)) hnd.1
      rw [hnone]
      simp
    · rw [ih hnd.2 h]
      simp

/-! ### Lemmas about the merge loop -/

theorem mergeTenetsLoop_map_id (lookup : String → Option Tenet) (gs : List Tenet) :
    ((mergeTenetsLoop lookup gs).1).map Tenet.id = gs.map Tenet.id := by
  induction gs with
  | nil => rfl
  | cons g gs ih =>
    cases hl : lookup g.id <;>
      simp [mergeTenetsLoop, hl, mergeTenet, ih]

theorem mergeTenetsLoop_preserved (lookup : String → Option Tenet) (gs : List Tenet) :
    (mergeTenetsLoop lookup gs).2.1 =
      (gs.filter (fun g => (lookup g.id).isSome)).length := by
  induction gs with
  | nil => rfl
  | cons g gs ih =>
    cases hl : lookup g.id <;>
      simp [mergeTenetsLoop, hl, List.filter_cons, ih]

theorem mergeTenetsLoop_added (lookup : String → Option Tenet) (gs : List Tenet) :
    (mergeTenetsLoop lookup gs).2.2 =
      (gs.filter (fun g => !(lookup g.id).isSome)).length := by
  induction gs with
  | nil => rfl
  | cons g gs ih =>
    cases hl : lookup g.id <;>
      simp [mergeTenetsLoop, hl, List.filter_cons, ih]

theorem mergeTenetsLoop_mem (lookup : String → Option Tenet) (gs : List Tenet)
    (mt : Tenet) (h : mt ∈ (mergeTenetsLoop lookup gs).1) :
    ∃ g ∈ gs,
      (∃ e, lookup g.id = some e ∧ mt = mergeTenet e g) ∨
      (lookup g.id = none ∧ mt = g) := by
  induction gs with
  | nil => cases h
  | cons g gs ih =>
    cases hl : lookup g.id with
    | some e =>
      simp only [mergeTenetsLoop, hl] at h
      rcases List.mem_cons.mp h with h1 | h1
      · exact ⟨g, List.mem_cons_self _ _, Or.inl ⟨e, hl, h1⟩⟩
      · obtain ⟨g2, hg2, hcase⟩ := ih h1
        exact ⟨g2, List.mem_cons_of_mem _ hg2, hcase⟩
    | none =>
      simp only [mergeTenetsLoop, hl] at h
      rcases List.mem_cons.mp h with h1 | h1
      · exact ⟨g, List.mem_cons_self _ _, Or.inr ⟨hl, h1⟩⟩
      · obtain ⟨g2, hg2, hcase⟩ := ih h1
        exact ⟨g2, List.mem_cons_of_mem _ hg2, hcase⟩

theorem mergeTenetsLoop_self (lookup : String → Option Tenet) (gs : List Tenet)
    (h : ∀ g ∈ gs, lookup g.id = some g) :
    mergeTenetsLoop lookup gs = (gs.map clearMergeDropped, gs.length, 0) := by
  induction gs with
  | nil => rfl
  | cons g gs ih =>
    have hg := h g (List.mem_cons_self _ _)
    have hrest := ih (fun g2 hg2 => h g2 (List.mem_cons_of_mem _ hg2))
    simp only [mergeTenetsLoop, hg, hrest]
    rfl

theorem MergePolicy_fst_some (E G M : Policy) (h : (MergePolicy E G).1 = some M) :
    M = (mergePolicyCore E G).1 := by
  unfold MergePolicy at h
  by_cases hv : validatePolicy (mergePolicyCore E G).1 <;> simp [hv] at h
  exact h.symm

theorem MergePolicy_snd (E G : Policy) :
    (MergePolicy E G).2 = (mergePolicyCore E G).2 := by
  unfold MergePolicy
  by_cases hv : validatePolicy (mergePolicyCore E G).1 <;> simp [hv]

theorem mergePolicyCore_tenets (E G : Policy) :
    (mergePolicyCore E G).1.tenets =
      (mergeTenetsLoop (lookupTenet E.tenets) G.tenets).1 := rfl

theorem mergePolicyCore_stats (E G : Policy) :
    (mergePolicyCore E G).2 =
      { tenetsPreserved := (mergeTenetsLoop (lookupTenet E.tenets) G.tenets).2.1
        tenetsAdded := (mergeTenetsLoop (lookupTenet E.tenets) G.tenets).2.2
        tenetsRemoved :=
          (((E.tenets.map (fun t => t.id)).dedup).filter
            (fun i => !(G.tenets.map (fun t => t.id)).contains i)).length } := rfl

theorem length_filter_eq_card (l : List String) (hl : l.Nodup) (p : String → Bool) :
    (l.filter p).length = (l.toFinset.filter (fun i => p i = true)).card := by
  rw [← List.toFinset_card_of_nodup (hl.filter p), List.toFinset_filter]

theorem dedup_toFinset (l : List String) : l.dedup.toFinset = l.toFinset :=
  Finset.ext fun a => by simp [List.mem_toFinset, List.mem_dedup]

/-! ### Claim theorems for the merge engine -/

/-- C1: for every tenet id `T` present in both the existing and the
generated policy, every tenet with id `T` in the merged result carries
the expression (`Code`) and output bindings (`Outputs`) of the existing
policy's tenet with id `T`. -/
theorem mergePolicy_preserves_code_outputs (E G : Policy) (T : String)
    (hTE : T ∈ E.tenets.map Tenet.id) (hTG : T ∈ G.tenets.map Tenet.id) :
    ∃ eT ∈ E.tenets, eT.id = T ∧
      ∀ M, (MergePolicy E G).1 = some M →
        (∃ mt ∈ M.tenets, mt.id = T) ∧
        ∀ mt ∈ M.tenets, mt.id = T → mt.code = eT.code ∧ mt.outputs = eT.outputs := by
  have hsome : (lookupTenet E.tenets T).isSome = true :=
    (lookupTenet_isSome_iff _ _).mpr hTE
  obtain ⟨eT, heT⟩ := Option.isSome_iff_exists.mp hsome
  obtain ⟨hmem, hid⟩ := lookupTenet_eq_some E.tenets T eT heT
  refine ⟨eT, hmem, hid, ?_⟩
  intro M hM
  have hMeq := MergePolicy_fst_some E G M hM
  subst hMeq
  rw [mergePolicyCore_tenets]
  constructor
  · have hids := mergeTenetsLoop_map_id (lookupTenet E.tenets) G.tenets
    have hTmem : T ∈ (mergeTenetsLoop (lookupTenet E.tenets) G.tenets).1.map Tenet.id := by
      rw [hids]; exact hTG
    obtain ⟨mt, hmt, hmtid⟩ := List.mem_map.mp hTmem
    exact ⟨mt, hmt, hmtid⟩
  · intro mt hmt hmtid
    obtain ⟨g, _, hcase⟩ := mergeTenetsLoop_mem _ _ mt hmt
    rcases hcase with ⟨e, he, hmte⟩ | ⟨hnone, hmtg⟩
    · have hgid : g.id = T := by
        rw [← hmtid, hmte]
        rfl
      rw [hgid, heT] at he
      cases he
      subst hmte
      exact ⟨rfl, rfl⟩
    · exfalso
      have hgid : g.id = T := by rw [← hmtid, hmtg]
      rw [hgid, heT] at hnone
      cases hnone

/-- Sample existing policy used by the merge witnesses. -/
def wExisting : Policy :=
  { id := "policy-1", meta := sampleMeta, context := [], identities := [],
    predicates := none,
    tenets := [
      { id := "t1", title := "old title", runtime := "cel@v14.0", predicates := none,
        code := "manual code",
        outputs := [("o", { code := "context.o", value := some (.num 1) })],
        error := none, assessment := none },
      { id := "t2", title := "stale", runtime := "cel@v14.0", predicates := none,
        code := "stale code", outputs := [], error := none, assessment := none }] }

/-- Sample generated policy used by the merge witnesses. -/
def wGenerated : Policy :=
  { id := "policy-1", meta := sampleMeta, context := [], identities := [],
    predicates := none,
    tenets := [
      { id := "t1", title := "new title", runtime := "cel@v14.0",
        predicates := some { types := ["https://slsa.dev/provenance/v1"], limit := 0 },
        code := "generated code", outputs := [], error := none, assessment := none },
      { id := "t3", title := "added", runtime := "cel@v14.0", predicates := none,
        code := "added code", outputs := [], error := none, assessment := none }] }

theorem mergePolicy_preserves_code_outputs_witness :
    ("t1" ∈ wExisting.tenets.map Tenet.id ∧ "t1" ∈ wGenerated.tenets.map Tenet.id) ∧
    (∃ eT ∈ wExisting.tenets, eT.id = "t1" ∧
      ∀ M, (MergePolicy wExisting wGenerated).1 = some M →
        (∃ mt ∈ M.tenets, mt.id = "t1") ∧
        ∀ mt ∈ M.tenets, mt.id = "t1" →
          mt.code = eT.code ∧ mt.outputs = eT.outputs) :=
  ⟨⟨by decide, by decide⟩,
   mergePolicy_preserves_code_outputs wExisting wGenerated "t1" (by decide) (by decide)⟩

/-- C2 counterexample: the generated tenet `t1` declares a predicate-type
filter, but the merged tenet with id `t1` has no predicate-type filter at
all — `mergeTenet` takes `Predicates` from neither input. -/
theorem mergeTenet_drops_predicates_cex :
    ((MergePolicy wExisting wGenerated).1.map fun M => M.tenets.map Tenet.predicates) =
      some [none, none] ∧
    wGenerated.tenets.map Tenet.predicates =
      [some { types := ["https://slsa.dev/provenance/v1"], limit := 0 }, none] ∧
    (none : Option PredicateSpec) ≠
      some { types := ["https://slsa.dev/provenance/v1"], limit := 0 } := by
  decide

/-- C2 (amended): a preserved tenet takes its identifier, title and
runtime identifier from the generated tenet, while its predicate-type
filter, error block and assessment are left unset, taken from neither
input. -/
theorem mergePolicy_preserved_metadata_from_generated (E G M : Policy)
    (hM : (MergePolicy E G).1 = some M) (mt : Tenet) (hmt : mt ∈ M.tenets)
    (hid : mt.id ∈ E.tenets.map Tenet.id) :
    ∃ g ∈ G.tenets, mt.id = g.id ∧ mt.title = g.title ∧ mt.runtime = g.runtime ∧
      mt.predicates = none ∧ mt.error = none ∧ mt.assessment = none := by
  have hMeq := MergePolicy_fst_some E G M hM
  subst hMeq
  rw [mergePolicyCore_tenets] at hmt
  obtain ⟨g, hg, hcase⟩ := mergeTenetsLoop_mem _ _ mt hmt
  rcases hcase with ⟨e, _, hmte⟩ | ⟨hnone, hmtg⟩
  · subst hmte
    exact ⟨g, hg, rfl, rfl, rfl, rfl, rfl, rfl⟩
  · exfalso
    subst hmtg
    have : (lookupTenet E.tenets mt.id).isSome = true :=
      (lookupTenet_isSome_iff _ _).mpr hid
    rw [hnone] at this
    cases this

/-- The merged tenet `t1` as produced on the sample policies. -/
def wMergedT1 : Tenet :=
  { id := "t1", title := "new title", runtime := "cel@v14.0", predicates := none,
    code := "manual code",
    outputs := [("o", { code := "context.o", value := some (.num 1) })],
    error := none, assessment := none }

/-- The merged policy as produced on the sample policies. -/
def wMerged : Policy :=
  { id := "policy-1", meta := sampleMeta, context := [], identities := [],
    predicates := none,
    tenets := [wMergedT1,
      { id := "t3", title := "added", runtime := "cel@v14.0", predicates := none,
        code := "added code", outputs := [], error := none, assessment := none }] }

theorem mergePolicy_preserved_metadata_from_generated_witness :
    ((MergePolicy wExisting wGenerated).1 = some wMerged ∧
      wMergedT1 ∈ wMerged.tenets ∧ wMergedT1.id ∈ wExisting.tenets.map Tenet.id) ∧
    (∃ g ∈ wGenerated.tenets, wMergedT1.id = g.id ∧ wMergedT1.title = g.title ∧
      wMergedT1.runtime = g.runtime ∧ wMergedT1.predicates = none ∧
      wMergedT1.error = none ∧ wMergedT1.assessment = none) :=
  ⟨⟨by decide, by decide, by decide⟩,
   mergePolicy_preserved_metadata_from_generated wExisting wGenerated wMerged
     (by decide) wMergedT1 (by decide) (by decide)⟩

/-- C3: with duplicate-free generated tenet ids, the merged tenet id set
equals the generated id set `B`, and for existing id set `A` the
statistics satisfy `TenetsPreserved = |A ∩ B|`, `TenetsAdded = |B \ A|`
and `TenetsRemoved = |A \ B|`; in particular no id outside `B` survives. -/
theorem mergePolicy_id_set_and_stats (E G : Policy)
    (hG : (G.tenets.map Tenet.id).Nodup) :
    ((MergePolicy E G).2.tenetsPreserved =
        ((E.tenets.map Tenet.id).toFinset ∩ (G.tenets.map Tenet.id).toFinset).card) ∧
    ((MergePolicy E G).2.tenetsAdded =
        ((G.tenets.map Tenet.id).toFinset \ (E.tenets.map Tenet.id).toFinset).card) ∧
    ((MergePolicy E G).2.tenetsRemoved =
        ((E.tenets.map Tenet.id).toFinset \ (G.tenets.map Tenet.id).toFinset).card) ∧
    ∀ M, (MergePolicy E G).1 = some M →
      (M.tenets.map Tenet.id).toFinset = (G.tenets.map Tenet.id).toFinset := by
  have hA : ∀ i, (lookupTenet E.tenets i).isSome = true ↔
      i ∈ (E.tenets.map Tenet.id).toFinset := by
    intro i
    rw [lookupTenet_isSome_iff, List.mem_toFinset]
  refine ⟨?_, ?_, ?_, ?_⟩
  · rw [MergePolicy_snd, mergePolicyCore_stats]
    show (mergeTenetsLoop (lookupTenet E.tenets) G.tenets).2.1 = _
    have hcnt : List.countP (fun g => (lookupTenet E.tenets g.id).isSome) G.tenets =
        List.countP (fun i => (lookupTenet E.tenets i).isSome)
          (G.tenets.map Tenet.id) := by
      rw [List.countP_map]
      rfl
    rw [mergeTenetsLoop_preserved, ← List.countP_eq_length_filter, hcnt,
      List.countP_eq_length_filter, length_filter_eq_card _ hG]
    rw [Finset.filter_congr (fun i _ => by rw [hA i]),
      Finset.filter_mem_eq_inter, Finset.inter_comm]
  · rw [MergePolicy_snd, mergePolicyCore_stats]
    show (mergeTenetsLoop (lookupTenet E.tenets) G.tenets).2.2 = _
    have hcnt : List.countP (fun g => !(lookupTenet E.tenets g.id).isSome) G.tenets =
        List.countP (fun i => !(lookupTenet E.tenets i).isSome)
          (G.tenets.map Tenet.id) := by
      rw [List.countP_map]
      rfl
    rw [mergeTenetsLoop_added, ← List.countP_eq_length_filter, hcnt,
      List.countP_eq_length_filter, length_filter_eq_card _ hG]
    rw [Finset.sdiff_eq_filter]
    refine congrArg Finset.card (Finset.filter_congr fun i _ => ?_)
    rw [Bool.not_eq_true', Bool.eq_false_iff]
    rw [ne_eq, hA i]
  · rw [MergePolicy_snd, mergePolicyCore_stats]
    show (((E.tenets.map (fun t => t.id)).dedup).filter
        (fun i => !(G.tenets.map (fun t => t.id)).contains i)).length = _
    rw [length_filter_eq_card _ (List.nodup_dedup _), dedup_toFinset]
    rw [Finset.sdiff_eq_filter]
    refine congrArg Finset.card (Finset.filter_congr fun i _ => ?_)
    rw [Bool.not_eq_true', Bool.eq_false_iff, ne_eq]
    show ¬(G.tenets.map (fun t => t.id)).elem i = true ↔ _
    rw [List.elem_iff, List.mem_toFinset]
  · intro M hM
    have hMeq := MergePolicy_fst_some E G M hM
    subst hMeq
    rw [mergePolicyCore_tenets, mergeTenetsLoop_map_id]

theorem mergePolicy_id_set_and_stats_witness :
    ((wGenerated.tenets.map Tenet.id).Nodup) ∧
    (((MergePolicy wExisting wGenerated).2.tenetsPreserved =
        ((wExisting.tenets.map Tenet.id).toFinset ∩
          (wGenerated.tenets.map Tenet.id).toFinset).card) ∧
     ((MergePolicy wExisting wGenerated).2.tenetsAdded =
        ((wGenerated.tenets.map Tenet.id).toFinset \
          (wExisting.tenets.map Tenet.id).toFinset).card) ∧
     ((MergePolicy wExisting wGenerated).2.tenetsRemoved =
        ((wExisting.tenets.map Tenet.id).toFinset \
          (wGenerated.tenets.map Tenet.id).toFinset).card) ∧
     ∀ M, (MergePolicy wExisting wGenerated).1 = some M →
       (M.tenets.map Tenet.id).toFinset = (wGenerated.tenets.map Tenet.id).toFinset) :=
  ⟨by decide, mergePolicy_id_set_and_stats wExisting wGenerated (by decide)⟩

/-- C4 counterexample: a structurally valid policy whose only tenet
declares a predicate-type filter; self-merge succeeds with the claimed
statistics, yet the merged policy is not equal to the input because the
tenet's predicate-type filter has been dropped. -/
def wPredPolicy : Policy :=
  { id := "p", meta := sampleMeta, context := [], identities := [],
    predicates := none,
    tenets := [
      { id := "t", title := "T", runtime := "cel@v14.0",
        predicates := some { types := ["https://slsa.dev/provenance/v1"], limit := 0 },
        code := "true", outputs := [], error := none, assessment := none }] }

theorem mergePolicy_self_not_identity_cex :
    validatePolicy wPredPolicy = true ∧
    (MergePolicy wPredPolicy wPredPolicy).2 = ⟨1, 0, 0⟩ ∧
    (MergePolicy wPredPolicy wPredPolicy).1 ≠ some wPredPolicy := by
  decide

theorem validatePolicy_clearMergeDropped (X : Policy) (hv : validatePolicy X = true) :
    validatePolicy (clearMergeDroppedPolicy X) = true := by
  unfold validatePolicy at *
  unfold clearMergeDroppedPolicy
  rw [Bool.and_eq_true] at hv ⊢
  constructor
  · rcases hv with ⟨h1, _⟩
    cases hX : X.tenets with
    | nil => rw [hX] at h1; cases h1
    | cons t ts => simp [hX, List.isEmpty]
  · rcases hv with ⟨_, h2⟩
    rw [List.all_map]
    exact h2

/-- C4 (amended): self-merging a structurally valid policy with
duplicate-free tenet ids succeeds with `TenetsPreserved` equal to the
tenet count and zero added/removed, and returns the policy itself up to
clearing of the fields the merge drops (each tenet's predicate-type
filter, error and assessment; the policy-level identities and
predicates). -/
theorem mergePolicy_self_merge (X : Policy)
    (hnd : (X.tenets.map Tenet.id).Nodup) (hv : validatePolicy X = true) :
    MergePolicy X X =
      (some (clearMergeDroppedPolicy X), ⟨X.tenets.length, 0, 0⟩) := by
  have hloop : mergeTenetsLoop (lookupTenet X.tenets) X.tenets =
      (X.tenets.map clearMergeDropped, X.tenets.length, 0) :=
    mergeTenetsLoop_self _ _ (fun g hg => lookupTenet_self X.tenets hnd g hg)
  have hremoved : (((X.tenets.map (fun t => t.id)).dedup).filter
      (fun i => !(X.tenets.map (fun t => t.id)).contains i)).length = 0 := by
    rw [List.length_eq_zero, List.filter_eq_nil_iff]
    intro a ha
    have hmem : a ∈ X.tenets.map (fun t => t.id) := List.mem_dedup.mp ha
    have : (X.tenets.map (fun t => t.id)).elem a = true := List.elem_iff.mpr hmem
    show ¬(!(X.tenets.map (fun t => t.id)).elem a) = true
    rw [this]
    decide
  have hcore : mergePolicyCore X X =
      (clearMergeDroppedPolicy X, ⟨X.tenets.length, 0, 0⟩) := by
    have h1 : (mergePolicyCore X X).1 = clearMergeDroppedPolicy X := by
      show ({ id := X.id, meta := X.meta, context := X.context, identities := [],
              predicates := none,
              tenets := (mergeTenetsLoop (lookupTenet X.tenets) X.tenets).1 } : Policy) = _
      rw [hloop]
      rfl
    have h2 : (mergePolicyCore X X).2 = ⟨X.tenets.length, 0, 0⟩ := by
      rw [mergePolicyCore_stats, hloop, hremoved]
    calc mergePolicyCore X X = ((mergePolicyCore X X).1, (mergePolicyCore X X).2) := rfl
      _ = (clearMergeDroppedPolicy X, ⟨X.tenets.length, 0, 0⟩) := by rw [h1, h2]
  unfold MergePolicy
  rw [hcore]
  have hvm := validatePolicy_clearMergeDropped X hv
  simp [hvm]

/-- Sample valid policy without predicate filters for the C4 witness. -/
def wSelfPolicy : Policy :=
  { id := "p", meta := sampleMeta, context := [], identities := [],
    predicates := none,
    tenets := [
      { id := "t", title := "T", runtime := "cel@v14.0", predicates := none,
        code := "true", outputs := [], error := none, assessment := none }] }

theorem mergePolicy_self_merge_witness :
    ((wSelfPolicy.tenets.map Tenet.id).Nodup ∧ validatePolicy wSelfPolicy = true) ∧
    MergePolicy wSelfPolicy wSelfPolicy =
      (some (clearMergeDroppedPolicy wSelfPolicy), ⟨wSelfPolicy.tenets.length, 0, 0⟩) :=
  ⟨⟨by decide, by decide⟩, mergePolicy_self_merge wSelfPolicy (by decide) (by decide)⟩

/-! ### Lemmas about splitting on a separator character -/

theorem splitOnChar_ne_nil (c : Char) (l : List Char) : splitOnChar c l ≠ [] := by
  cases l with
  | nil => simp [splitOnChar]
  | cons a as =>
    unfold splitOnChar
    by_cases h : a == c
    · simp [h]
    · simp only [h, Bool.false_eq_true, if_false]
      cases hs : splitOnChar c as with
      | nil => simp
      | cons p ps => simp

theorem splitOnChar_length (c : Char) (l : List Char) :
    (splitOnChar c l).length = l.count c + 1 := by
  induction l with
  | nil => simp [splitOnChar]
  | cons a as ih =>
    unfold splitOnChar
    by_cases h : a == c
    · simp only [h, if_true, List.length_cons, List.count_cons, ih]
    · have hf : (a == c) = false := Bool.eq_false_iff.mpr (fun hh => h hh)
      simp only [h, Bool.false_eq_true, if_false]
      cases hs : splitOnChar c as with
      | nil => exact absurd hs (splitOnChar_ne_nil c as)
      | cons p ps =>
        rw [hs] at ih
        simp only [List.length_cons, List.count_cons, hf, Bool.false_eq_true,
          if_false] at ih ⊢
        omega

theorem splitOnChar_of_not_mem (c : Char) (l : List Char) (h : c ∉ l) :
    splitOnChar c l = [l] := by
  induction l with
  | nil => rfl
  | cons a as ih =>
    have hne : ¬ a == c := by
      simp only [beq_iff_eq]
      intro heq
      exact h (heq ▸ List.mem_cons_self a as)
    have hnm : c ∉ as := fun hm => h (List.mem_cons_of_mem _ hm)
    unfold splitOnChar
    simp only [hne, Bool.false_eq_true, if_false, ih hnm]

theorem takeWhile_all (p : Char → Bool) (xs : List Char) (h : ∀ x ∈ xs, p x) :
    xs.takeWhile p = xs := by
  induction xs with
  | nil => rfl
  | cons a as ih =>
    rw [List.takeWhile_cons, if_pos (h a (List.mem_cons_self a as))]
    rw [ih (fun x hx => h x (List.mem_cons_of_mem _ hx))]

theorem takeWhile_length_ne (p : Char → Bool) (xs : List Char)
    (h : ∃ x ∈ xs, ¬ p x) : (xs.takeWhile p).length ≠ xs.length := by
  induction xs with
  | nil => obtain ⟨x, hx, _⟩ := h; cases hx
  | cons a as ih =>
    rw [List.takeWhile_cons]
    by_cases hpa : p a
    · rw [if_pos hpa]
      have : ∃ x ∈ as, ¬ p x := by
        obtain ⟨x, hx, hpx⟩ := h
        rcases List.mem_cons.mp hx with rfl | hx2
        · exact absurd hpa hpx
        · exact ⟨x, hx2, hpx⟩
      simpa using ih this
    · rw [if_neg hpa]
      simp only [List.length_nil, List.length_cons]
      omega

theorem afterLastChar_nil (c : Char) : afterLastChar c [] = [] := rfl

theorem afterLastChar_cons_of_mem (c a : Char) (l : List Char) (h : c ∈ l) :
    afterLastChar c (a :: l) = afterLastChar c l := by
  unfold afterLastChar
  rw [List.reverse_cons, List.takeWhile_append, if_neg]
  exact takeWhile_length_ne _ _ ⟨c, List.mem_reverse.mpr h, by simp⟩

theorem afterLastChar_of_not_mem (c : Char) (l : List Char) (h : c ∉ l) :
    afterLastChar c l = l := by
  unfold afterLastChar
  rw [takeWhile_all _ _ (fun x hx => by
    simp only [bne_iff_ne, ne_eq]
    intro heq
    exact h (heq ▸ List.mem_reverse.mp hx))]
  exact List.reverse_reverse l

theorem afterLastChar_cons_self_of_not_mem (c : Char) (l : List Char) (h : c ∉ l) :
    afterLastChar c (c :: l) = l := by
  unfold afterLastChar
  rw [List.reverse_cons, List.takeWhile_append,
    if_pos (by rw [takeWhile_all _ _ (fun x hx => by
      simp only [bne_iff_ne, ne_eq]
      intro heq
      exact h (heq ▸ List.mem_reverse.mp hx))])]
  simp

theorem splitOnChar_getLastD (c : Char) (l : List Char) :
    (splitOnChar c l).getLastD [] = afterLastChar c l := by
  induction l with
  | nil => rfl
  | cons a as ih =>
    by_cases h : a == c
    · have ha : a = c := by simpa using h
      subst ha
      show (splitOnChar a (a :: as)).getLastD [] = _
      unfold splitOnChar
      rw [if_pos (by simp), List.getLastD_cons]
      by_cases hm : a ∈ as
      · rw [afterLastChar_cons_of_mem a a as hm]
        exact ih
      · rw [afterLastChar_cons_self_of_not_mem a as hm,
          splitOnChar_of_not_mem a as hm]
        rfl
    · have hne : ¬ a = c := by simpa using h
      show (splitOnChar c (a :: as)).getLastD [] = _
      unfold splitOnChar
      simp only [h, Bool.false_eq_true, if_false]
      cases hs : splitOnChar c as with
      | nil => exact absurd hs (splitOnChar_ne_nil c as)
      | cons p ps =>
        rw [List.getLastD_cons]
        cases ps with
        | nil =>
          have hlen := splitOnChar_length c as
          rw [hs] at hlen
          have hcnt : as.count c = 0 := by simpa using hlen.symm
          have hnm : c ∉ as := by
            intro hm
            have := List.count_pos_iff.mpr hm
            omega
          have hp : p = as := by
            have := splitOnChar_of_not_mem c as hnm
            rw [hs] at this
            exact (List.cons.injEq _ _ _ _ ▸ this :
              p = as ∧ ([] : List (List Char)) = []).1
          subst hp
          rw [afterLastChar_of_not_mem c (a :: p) (by
            intro hm
            rcases List.mem_cons.mp hm with heq | hm2
            · exact hne heq.symm
            · exact hnm hm2)]
          rfl
        | cons q qs =>
          have hlen := splitOnChar_length c as
          rw [hs] at hlen
          have hmem : c ∈ as := by
            apply List.count_pos_iff.mp
            simp only [List.length_cons] at hlen
            omega
          rw [afterLastChar_cons_of_mem c a as hmem, ← ih, hs]
          simp only [List.getLastD_cons]

/-- C10: `extractPolicyIdFromReference` agrees everywhere with its
specification-side description: for references containing `#` it is the
base filename of the text after the last `#` with the extension
stripped, and references without `#` pass through unchanged. -/
theorem extractPolicyIdFromReference_spec (reference : String) :
    extractPolicyIdFromReference reference = extractPolicyIdSpec reference := by
  simp only [extractPolicyIdFromReference, extractPolicyIdSpec]
  by_cases h : '#' ∈ reference.data
  · have hlen : (splitOnChar '#' reference.data).length > 1 := by
      rw [splitOnChar_length]
      have := List.count_pos_iff.mpr h
      omega
    have hcont : reference.data.contains '#' = true := by
      show reference.data.elem '#' = true
      exact List.elem_iff.mpr h
    rw [if_pos hlen, if_pos hcont, splitOnChar_getLastD]
  · have hcnt : reference.data.count '#' = 0 := by
      by_contra hc
      exact h (List.count_pos_iff.mp (by omega))
    have hlen : ¬ (splitOnChar '#' reference.data).length > 1 := by
      rw [splitOnChar_length, hcnt]
      omega
    have hcont : ¬ reference.data.contains '#' = true := by
      show ¬ reference.data.elem '#' = true
      rw [List.elem_iff]
      exact h
    rw [if_neg hlen, if_neg hcont]

/-! ### Version parsing (C8) -/

theorem splitOnChar_cons (c a : Char) (as : List Char) :
    splitOnChar c (a :: as) =
      if a == c then [] :: splitOnChar c as
      else match splitOnChar c as with
        | [] => [[a]]
        | p :: ps => (a :: p) :: ps := rfl

theorem splitOnChar_head (c : Char) (l : List Char) :
    ∃ ps, splitOnChar c l = (l.takeWhile (fun a => a != c)) :: ps := by
  induction l with
  | nil => exact ⟨[], rfl⟩
  | cons a as ih =>
    by_cases h : a == c
    · refine ⟨splitOnChar c as, ?_⟩
      have hbne : (a != c) = false := by
        simp only [bne, h, Bool.not_true]
      rw [splitOnChar_cons, if_pos h, List.takeWhile_cons, hbne]
      simp only [Bool.false_eq_true, if_false]
    · obtain ⟨ps, hps⟩ := ih
      refine ⟨ps, ?_⟩
      have hbne : (a != c) = true := by
        simp only [bne, Bool.not_eq_true']
        exact Bool.eq_false_iff.mpr (fun hh => h hh)
      rw [splitOnChar_cons, if_neg (by simpa using h), hps, List.takeWhile_cons, hbne]
      simp only [if_true]

/-- C8: `buildMetadata` writes as the target's integer version exactly the
first dot-delimited segment of the source version string parsed as a
base-10 (64-bit) integer, defaulting to 0 on failure; in particular
version `"2.7.3"` maps to `2`, and `""` and `"vX"` map to `0`. -/
theorem buildMetadata_version_parsing :
    (∀ (gp : GemaraPolicy) (ap : Policy),
      (buildMetadata gp ap).meta.version =
        (parseGoInt64 ⟨gp.metadataVersion.data.takeWhile (fun a => a != '.')⟩).getD 0) ∧
    goMajorVersion "2.7.3" = 2 ∧ goMajorVersion "" = 0 ∧ goMajorVersion "vX" = 0 := by
  refine ⟨?_, by decide, by decide, by decide⟩
  intro gp ap
  show goMajorVersion gp.metadataVersion = _
  by_cases h : gp.metadataVersion = ""
  · rw [h]
    decide
  · unfold goMajorVersion
    rw [if_pos (bne_iff_ne.mpr h)]
    obtain ⟨ps, hps⟩ := splitOnChar_head '.' gp.metadataVersion.data
    rw [hps]
    cases hp : parseGoInt64 ⟨gp.metadataVersion.data.takeWhile (fun a => a != '.')⟩ <;>
      simp [hp]

/-! ### Context construction (C7) -/

theorem mem_foldl_params (params : List Parameter) (p : Parameter) :
    ∀ acc, p ∈ params.foldl (fun acc2 param =>
        if acc2.any (fun q => q.id == param.id) then acc2 else acc2 ++ [param]) acc →
      p ∈ acc ∨ p ∈ params := by
  induction params with
  | nil => intro acc h; exact Or.inl h
  | cons param params ih =>
    intro acc h
    rw [List.foldl_cons] at h
    rcases ih _ h with hacc | hrest
    · by_cases hc : acc.any (fun q => q.id == param.id)
      · rw [if_pos hc] at hacc
        exact Or.inl hacc
      · rw [if_neg hc] at hacc
        rcases List.mem_append.mp hacc with h1 | h1
        · exact Or.inl h1
        · simp only [List.mem_singleton] at h1
          exact Or.inr (h1 ▸ List.mem_cons_self _ _)
    · exact Or.inr (List.mem_cons_of_mem _ hrest)

theorem mem_collectParameters (plans : List AssessmentPlan) (p : Parameter)
    (h : p ∈ collectParameters plans) : ∃ plan ∈ plans, p ∈ plan.parameters := by
  unfold collectParameters at h
  suffices H : ∀ acc, p ∈ plans.foldl (fun acc plan =>
      plan.parameters.foldl (fun acc2 param =>
        if acc2.any (fun q => q.id == param.id) then acc2 else acc2 ++ [param]) acc) acc →
      p ∈ acc ∨ ∃ plan ∈ plans, p ∈ plan.parameters by
    rcases H [] h with h1 | h1
    · cases h1
    · exact h1
  clear h
  induction plans with
  | nil => intro acc h; exact Or.inl h
  | cons plan plans ih =>
    intro acc h
    rw [List.foldl_cons] at h
    rcases ih _ h with hacc | hrest
    · rcases mem_foldl_params plan.parameters p acc hacc with h1 | h1
      · exact Or.inl h1
      · exact Or.inr ⟨plan, List.mem_cons_self _ _, h1⟩
    · obtain ⟨plan2, hplan2, hp⟩ := hrest
      exact Or.inr ⟨plan2, List.mem_cons_of_mem _ hplan2, hp⟩

/-- C7: every entry of the generated policy's context table comes from a
parameter of some assessment plan via `parameterToContextVal`; a
parameter with accepted values yields `required = false` with the first
accepted value as default (and current value), and a parameter without
accepted values yields `required = true` with no default and no value. -/
theorem context_entry_required_default (gp : GemaraPolicy) (k : String)
    (cv : ContextVal) (hmem : (k, cv) ∈ buildContextFromParameters gp) :
    ∃ p, (∃ plan ∈ gp.assessmentPlans, p ∈ plan.parameters) ∧ p.id = k ∧
      cv = parameterToContextVal p ∧
      (p.acceptedValues ≠ [] →
        cv.required = some false ∧
        ∃ v rest, p.acceptedValues = v :: rest ∧
          cv.default = some (.str v) ∧ cv.value = some (.str v)) ∧
      (p.acceptedValues = [] →
        cv.required = some true ∧ cv.default = none ∧ cv.value = none) := by
  unfold buildContextFromParameters at hmem
  obtain ⟨p, hp, heq⟩ := List.mem_map.mp hmem
  obtain ⟨hid, hcv⟩ := Prod.mk.injEq _ _ _ _ ▸ heq
  refine ⟨p, mem_collectParameters _ _ hp, hid, hcv.symm, ?_, ?_⟩
  · intro hne
    cases hv : p.acceptedValues with
    | nil => exact absurd hv hne
    | cons v rest =>
      rw [← hcv]
      unfold parameterToContextVal
      rw [hv]
      exact ⟨rfl, v, rest, rfl, rfl, rfl⟩
  · intro hnil
    rw [← hcv]
    unfold parameterToContextVal
    rw [hnil]
    exact ⟨rfl, rfl, rfl⟩

/-- Sample source policy for the C7 witness: one plan with a multi-valued
parameter and a runtime-supplied parameter. -/
def wGemaraPolicy : GemaraPolicy :=
  { metadataId := "gp", metadataDescription := "", metadataVersion := "2.7.3",
    assessmentPlans := [
      { id := "plan-1", requirementId := "REQ-1", evidenceRequirements := "",
        parameters := [
          { id := "builder-id", label := "", description := "",
            acceptedValues := ["https://builder.example/a", "https://builder.example/b"] },
          { id := "api-token", label := "token", description := "",
            acceptedValues := [] }],
        evaluationMethods := [⟨"manual", ""⟩, ⟨"automated", ""⟩] }],
    scopeIn := ⟨[], [], [], []⟩, importPolicies := [] }

theorem context_entry_required_default_witness :
    (("builder-id", parameterToContextVal
        { id := "builder-id", label := "", description := "",
          acceptedValues := ["https://builder.example/a", "https://builder.example/b"] }) ∈
      buildContextFromParameters wGemaraPolicy) ∧
    (∃ p, (∃ plan ∈ wGemaraPolicy.assessmentPlans, p ∈ plan.parameters) ∧
      p.id = "builder-id" ∧
      parameterToContextVal
        { id := "builder-id", label := "", description := "",
          acceptedValues := ["https://builder.example/a", "https://builder.example/b"] } =
        parameterToContextVal p ∧
      (p.acceptedValues ≠ [] →
        (parameterToContextVal
          { id := "builder-id", label := "", description := "",
            acceptedValues := ["https://builder.example/a", "https://builder.example/b"] }).required =
            some false ∧
        ∃ v rest, p.acceptedValues = v :: rest ∧
          (parameterToContextVal
            { id := "builder-id", label := "", description := "",
              acceptedValues := ["https://builder.example/a", "https://builder.example/b"] }).default =
              some (.str v) ∧
          (parameterToContextVal
            { id := "builder-id", label := "", description := "",
              acceptedValues := ["https://builder.example/a", "https://builder.example/b"] }).value =
              some (.str v)) ∧
      (p.acceptedValues = [] →
        (parameterToContextVal
          { id := "builder-id", label := "", description := "",
            acceptedValues := ["https://builder.example/a", "https://builder.example/b"] }).required =
            some true ∧
        (parameterToContextVal
          { id := "builder-id", label := "", description := "",
            acceptedValues := ["https://builder.example/a", "https://builder.example/b"] }).default =
            none ∧
        (parameterToContextVal
          { id := "builder-id", label := "", description := "",
            acceptedValues := ["https://builder.example/a", "https://builder.example/b"] }).value =
            none)) :=
  ⟨by decide,
   context_entry_required_default wGemaraPolicy "builder-id" _ (by decide)⟩

/-! ### Expression generation fallback (C9) -/

theorem selectTemplate_empty_of_infer_empty (evidenceReq : String)
    (h : InferAttestationType evidenceReq = "") :
    selectTemplateFromEvidence evidenceReq = "" := by
  simp only [InferAttestationType] at h
  split_ifs at h with h1 h2 h3 h4 h5 h6
  · exact absurd h (by decide)
  · exact absurd h (by decide)
  · exact absurd h (by decide)
  · exact absurd h (by decide)
  · exact absurd h (by decide)
  · exact absurd h (by decide)
  · unfold selectTemplateFromEvidence
    simp only [Bool.or_eq_true, not_or, Bool.not_eq_true] at h1 h2 h3 h4 h5 h6
    obtain ⟨⟨⟨h1a, h1b⟩, _⟩, _⟩ := h1
    obtain ⟨h4a, h4b⟩ := h4
    obtain ⟨⟨⟨h5a, h5b⟩, _⟩, _⟩ := h5
    simp [h1a, h1b, h2, h3, h4a, h4b, h5a, h5b]

/-- C9 counterexample: for the automatable method type `automated` with
the default template set, evidence that matches no classification
keyword still selects the generic field-equality template, so the result
is the instantiated generic template — not the `true` no-op with the
evidence embedded in a comment. -/
theorem generateCEL_unknown_evidence_cex :
    GenerateCELFromMethod ⟨"automated", ""⟩ "internal spreadsheet review" []
        DefaultCELTemplates =
      .ok ("attestation.predicate.<no value> == \"<no value>\"", []) ∧
    InferAttestationType "internal spreadsheet review" = "" ∧
    isAutomatedMethod "automated" = true ∧
    "attestation.predicate.<no value> == \"<no value>\"" ≠
      "true /* TODO: Implement verification logic based on: internal spreadsheet review */" := by
  refine ⟨by rfl, by decide, by decide, by decide⟩

/-- C9 (amended): when the evidence text matches no classification
keyword (empty predicate-type inference) and the supplied template set
does not contain the method type's default template name — for example
an empty custom template set — expression generation returns, without
error, an empty predicate-type list together with the non-empty
expression `true /* TODO: ... */` embedding the evidence text verbatim.
With the built-in template set, an automatable method instead
instantiates its generic method-type template (still no error and empty
inference). -/
theorem generateCEL_basic_fallback (method : AcceptedMethod) (evidenceReq : String)
    (params templates : List (String × String))
    (hinfer : InferAttestationType evidenceReq = "")
    (htempl : lookupAssoc templates
      ((lookupAssoc MethodTypeToCELTemplate method.type).getD "") = none) :
    GenerateCELFromMethod method evidenceReq params templates =
      .ok ("true /* TODO: Implement verification logic based on: " ++
        evidenceReq ++ " */", []) := by
  have hsel := selectTemplate_empty_of_infer_empty _ hinfer
  cases hlk : lookupAssoc MethodTypeToCELTemplate method.type with
  | none =>
    rw [hlk, Option.getD_none] at htempl
    unfold GenerateCELFromMethod
    rw [hsel, hinfer, hlk]
    simp only [beq_self_eq_true, if_true, htempl]
    rfl
  | some d =>
    rw [hlk, Option.getD_some] at htempl
    unfold GenerateCELFromMethod
    rw [hsel, hinfer, hlk]
    simp only [beq_self_eq_true, if_true, htempl]
    rfl

theorem generateCEL_basic_fallback_witness :
    (InferAttestationType "internal spreadsheet review" = "" ∧
     lookupAssoc []
       ((lookupAssoc MethodTypeToCELTemplate
         (AcceptedMethod.mk "automated" "").type).getD "") = none) ∧
    GenerateCELFromMethod ⟨"automated", ""⟩ "internal spreadsheet review" [] [] =
      .ok ("true /* TODO: Implement verification logic based on: " ++
        "internal spreadsheet review" ++ " */", []) :=
  ⟨⟨by decide, by decide⟩,
   generateCEL_basic_fallback ⟨"automated", ""⟩ "internal spreadsheet review" [] []
     (by decide) (by decide)⟩

/-! ### Tenet id determinism (C5) -/

theorem planMethodsLoop_nil (plan : AssessmentPlan) (policy : GemaraPolicy)
    (options : TransformOptions) (enrichment : Option CatalogEnrichment) (idx : Nat) :
    planMethodsLoop plan policy options enrichment [] idx = .ok ([], []) := rfl

theorem planMethodsLoop_cons (plan : AssessmentPlan) (policy : GemaraPolicy)
    (options : TransformOptions) (enrichment : Option CatalogEnrichment)
    (method : AcceptedMethod) (ms : List AcceptedMethod) (idx : Nat) :
    planMethodsLoop plan policy options enrichment (method :: ms) idx =
      (if isAutomatedMethod method.type then
        match GenerateCELFromMethod method plan.evidenceRequirements
            (buildCELParams plan.parameters) options.celTemplates with
        | .error e => .error e
        | .ok (celCode0, attestationTypes) =>
          let celCode :=
            if options.includeScopeFilters then
              let scopeFilter := ScopeFilterToCEL policy.scopeIn
              if scopeFilter != "" then "(" ++ scopeFilter ++ ") && (" ++ celCode0 ++ ")"
              else celCode0
            else celCode0
          let title := enrichTenetTitle enrichment
            (getTenetName method plan.evidenceRequirements)
          let tenet : Tenet :=
            { id := plan.requirementId ++ "-" ++ plan.id ++ "-" ++ toString idx
              title := title
              runtime := "cel@v14.0"
              predicates :=
                if attestationTypes.length > 0 then
                  some { types := attestationTypes, limit := 0 }
                else none
              code := celCode
              outputs := []
              error := none
              assessment := none }
          match planMethodsLoop plan policy options enrichment ms (idx + 1) with
          | .error e => .error e
          | .ok (ts, es) =>
            .ok (tenet :: ts, (match enrichment with | some e' => e' :: es | none => es))
      else planMethodsLoop plan policy options enrichment ms idx) := rfl

theorem planMethodsLoop_ids (plan : AssessmentPlan) (policy : GemaraPolicy)
    (options : TransformOptions) (enrichment : Option CatalogEnrichment) :
    ∀ (ms : List AcceptedMethod) (idx : Nat) (ts : List Tenet)
      (es : List CatalogEnrichment),
      planMethodsLoop plan policy options enrichment ms idx = .ok (ts, es) →
      ts.map Tenet.id =
        (List.range ((ms.filter (fun m => isAutomatedMethod m.type)).length)).map
          (fun j => plan.requirementId ++ "-" ++ plan.id ++ "-" ++ toString (idx + j)) := by
  intro ms
  induction ms with
  | nil =>
    intro idx ts es h
    rw [planMethodsLoop_nil] at h
    simp only [Except.ok.injEq, Prod.mk.injEq] at h
    rw [← h.1]
    simp
  | cons method ms ih =>
    intro idx ts es h
    rw [planMethodsLoop_cons] at h
    by_cases haut : isAutomatedMethod method.type
    · rw [if_pos haut] at h
      cases hg : GenerateCELFromMethod method plan.evidenceRequirements
          (buildCELParams plan.parameters) options.celTemplates with
      | error e => rw [hg] at h; cases h
      | ok pr =>
        obtain ⟨celCode0, attTypes⟩ := pr
        rw [hg] at h
        cases hrec : planMethodsLoop plan policy options enrichment ms (idx + 1) with
        | error e => rw [hrec] at h; simp at h
        | ok pr2 =>
          obtain ⟨ts', es'⟩ := pr2
          rw [hrec] at h
          simp only [Except.ok.injEq, Prod.mk.injEq] at h
          obtain ⟨hts, _⟩ := h
          have hih := ih (idx + 1) ts' es' hrec
          rw [← hts]
          rw [List.filter_cons, if_pos haut]
          simp only [List.map_cons, List.length_cons, List.range_succ_eq_map,
            List.map_map, hih]
          refine (List.cons.injEq _ _ _ _).mpr ⟨by rw [Nat.add_zero], ?_⟩
          refine List.map_congr_left (fun j _ => ?_)
          simp only [Function.comp]
          have harith : idx + 1 + j = idx + (j + 1) := by omega
          rw [harith]
    · rw [if_neg haut] at h
      rw [List.filter_cons, if_neg haut]
      exact ih idx ts es h

/-- C5: whenever `assessmentPlanToTenets` succeeds, the produced tenet ids
are exactly `"{requirement-id}-{plan-id}-{ordinal}"` for ordinals
`0, 1, ...` counting only the evaluation methods whose type is in the
automatable set; skipped methods consume no ordinal. -/
theorem assessmentPlanToTenets_ids (plan : AssessmentPlan) (policy : GemaraPolicy)
    (options : TransformOptions) (ts : List Tenet) (es : List CatalogEnrichment)
    (h : assessmentPlanToTenets plan policy options = .ok (ts, es)) :
    ts.map Tenet.id =
      (List.range ((plan.evaluationMethods.filter
          (fun m => isAutomatedMethod m.type)).length)).map
        (fun j => plan.requirementId ++ "-" ++ plan.id ++ "-" ++ toString j) := by
  have hloop := planMethodsLoop_ids plan policy options (planEnrichment plan options)
    plan.evaluationMethods 0 ts es h
  simpa using hloop

/-- Sample plan of the claim's scenario: a `manual` method followed by an
`automated` one. -/
def wPlan5 : AssessmentPlan :=
  { id := "plan-1", requirementId := "REQ-1", evidenceRequirements := "",
    parameters := [], evaluationMethods := [⟨"manual", ""⟩, ⟨"automated", ""⟩] }

/-- Sample source policy with no scope dimensions. -/
def wPolicy5 : GemaraPolicy :=
  { metadataId := "p", metadataDescription := "", metadataVersion := "1.0",
    assessmentPlans := [], scopeIn := ⟨[], [], [], []⟩, importPolicies := [] }

/-- Default transformer options (built-in templates, no catalog). -/
def wOptions5 : TransformOptions :=
  { catalog := none, celTemplates := DefaultCELTemplates,
    includeScopeFilters := false, defaultRule := "all(tenets)" }

/-- The single tenet generated from `wPlan5`. -/
def wTenet5 : Tenet :=
  { id := "REQ-1-plan-1-0", title := "automated verification", runtime := "cel@v14.0",
    predicates := none, code := "attestation.predicate.<no value> == \"<no value>\"",
    outputs := [], error := none, assessment := none }

theorem assessmentPlanToTenets_ids_witness :
    (assessmentPlanToTenets wPlan5 wPolicy5 wOptions5 = .ok ([wTenet5], [])) ∧
    [wTenet5].map Tenet.id =
      (List.range ((wPlan5.evaluationMethods.filter
          (fun m => isAutomatedMethod m.type)).length)).map
        (fun j => wPlan5.requirementId ++ "-" ++ wPlan5.id ++ "-" ++ toString j) :=
  ⟨by rfl, assessmentPlanToTenets_ids wPlan5 wPolicy5 wOptions5 [wTenet5] [] (by rfl)⟩

/-! ### Tenet titles (C6) -/

/-- The requirement text carried by an enrichment (empty when absent). -/
def enrichmentReqText : Option CatalogEnrichment → String
  | some e =>
    (match e.requirement with
     | some r => r.text
     | none => "")
  | none => ""

/-- The control title carried by an enrichment (empty when absent). -/
def enrichmentControlTitle : Option CatalogEnrichment → String
  | some e =>
    (match e.control with
     | some c => c.title
     | none => "")
  | none => ""

/-- The flat title priority the code actually implements: enrichment
requirement text, then enrichment control title, then method
description, then the trimmed evidence requirement truncated to 80
characters with an ellipsis, then `"{method-type} verification"`. -/
def titleCascade (enrichment : Option CatalogEnrichment) (method : AcceptedMethod)
    (evidenceReq : String) : String :=
  if enrichmentReqText enrichment != "" then enrichmentReqText enrichment
  else if enrichmentControlTitle enrichment != "" then enrichmentControlTitle enrichment
  else if method.description != "" then method.description
  else if evidenceReq != "" then
    (let name := goTrimSpace evidenceReq
     if name.data.length > 80 then (⟨name.data.take 77⟩ : String) ++ "..." else name)
  else method.type ++ " verification"

theorem enrichTenetTitle_cascade (enrichment : Option CatalogEnrichment)
    (method : AcceptedMethod) (evidenceReq : String) :
    enrichTenetTitle enrichment (getTenetName method evidenceReq) =
      titleCascade enrichment method evidenceReq := by
  cases enrichment with
  | none =>
    simp only [enrichTenetTitle, titleCascade, enrichmentReqText, enrichmentControlTitle,
      getTenetName]
    simp
  | some e =>
    obtain ⟨ec, er, ef⟩ := e
    simp only [enrichTenetTitle, titleCascade, enrichmentReqText, enrichmentControlTitle,
      getTenetName]
    cases er with
    | none =>
      cases ec with
      | none => simp
      | some c =>
        by_cases hc : c.title = ""
        · simp [hc]
        · simp [hc, bne_iff_ne.mpr hc]
    | some r =>
      by_cases hr : r.text = ""
      · simp only [hr]
        cases ec with
        | none => simp
        | some c =>
          by_cases hc : c.title = ""
          · simp [hc]
          · simp [hc, bne_iff_ne.mpr hc]
      · simp [hr, bne_iff_ne.mpr hr]

theorem planMethodsLoop_titles (plan : AssessmentPlan) (policy : GemaraPolicy)
    (options : TransformOptions) (enrichment : Option CatalogEnrichment) :
    ∀ (ms : List AcceptedMethod) (idx : Nat) (ts : List Tenet)
      (es : List CatalogEnrichment),
      planMethodsLoop plan policy options enrichment ms idx = .ok (ts, es) →
      ∀ t ∈ ts, ∃ m ∈ ms, isAutomatedMethod m.type = true ∧
        t.title = enrichTenetTitle enrichment (getTenetName m plan.evidenceRequirements) := by
  intro ms
  induction ms with
  | nil =>
    intro idx ts es h t ht
    rw [planMethodsLoop_nil] at h
    simp only [Except.ok.injEq, Prod.mk.injEq] at h
    rw [← h.1] at ht
    cases ht
  | cons method ms ih =>
    intro idx ts es h t ht
    rw [planMethodsLoop_cons] at h
    by_cases haut : isAutomatedMethod method.type
    · rw [if_pos haut] at h
      cases hg : GenerateCELFromMethod method plan.evidenceRequirements
          (buildCELParams plan.parameters) options.celTemplates with
      | error e => rw [hg] at h; cases h
      | ok pr =>
        obtain ⟨celCode0, attTypes⟩ := pr
        rw [hg] at h
        cases hrec : planMethodsLoop plan policy options enrichment ms (idx + 1) with
        | error e => rw [hrec] at h; simp at h
        | ok pr2 =>
          obtain ⟨ts', es'⟩ := pr2
          rw [hrec] at h
          simp only [Except.ok.injEq, Prod.mk.injEq] at h
          obtain ⟨hts, _⟩ := h
          rw [← hts] at ht
          rcases List.mem_cons.mp ht with rfl | ht2
          · exact ⟨method, List.mem_cons_self _ _, haut, rfl⟩
          · obtain ⟨m, hm, hmaut, htitle⟩ := ih (idx + 1) ts' es' hrec t ht2
            exact ⟨m, List.mem_cons_of_mem _ hm, hmaut, htitle⟩
    · rw [if_neg haut] at h
      obtain ⟨m, hm, hmaut, htitle⟩ := ih idx ts es h t ht
      exact ⟨m, List.mem_cons_of_mem _ hm, hmaut, htitle⟩

/-- C6 (amended): every generated tenet's title follows the cascade the
code implements — the catalog enrichment's requirement text first (when
an enrichment resolved for the plan's requirement id and its text is
non-empty), then the enrichment's control title, then the method
description, then the evidence requirement trimmed and truncated to 80
characters with an ellipsis, then `"{method-type} verification"`. -/
theorem tenet_title_cascade (plan : AssessmentPlan) (policy : GemaraPolicy)
    (options : TransformOptions) (ts : List Tenet) (es : List CatalogEnrichment)
    (h : assessmentPlanToTenets plan policy options = .ok (ts, es))
    (t : Tenet) (ht : t ∈ ts) :
    ∃ m ∈ plan.evaluationMethods, isAutomatedMethod m.type = true ∧
      t.title = titleCascade (planEnrichment plan options) m plan.evidenceRequirements := by
  obtain ⟨m, hm, hmaut, htitle⟩ := planMethodsLoop_titles plan policy options
    (planEnrichment plan options) plan.evaluationMethods 0 ts es h t ht
  exact ⟨m, hm, hmaut, by rw [htitle, enrichTenetTitle_cascade]⟩

/-- Sample control for the C6 scenario. -/
def wControl6 : GemaraControl :=
  { id := "CTL-1", title := "Control title", family := "FAM-1",
    assessmentRequirements := [{ id := "REQ-9", text := "Requirement text" }] }

/-- Sample catalog for the C6 scenario. -/
def wCatalog6 : Catalog :=
  { controls := [wControl6], families := [{ id := "FAM-1", title := "Family title" }] }

/-- Sample plan whose only method carries a non-empty description. -/
def wPlan6 : AssessmentPlan :=
  { id := "plan-9", requirementId := "REQ-9", evidenceRequirements := "",
    parameters := [], evaluationMethods := [⟨"automated", "Method description"⟩] }

/-- Transformer options carrying the sample catalog. -/
def wOptions6 : TransformOptions :=
  { catalog := some wCatalog6, celTemplates := DefaultCELTemplates,
    includeScopeFilters := false, defaultRule := "all(tenets)" }

/-- C6 counterexample: the evaluation method's description is non-empty,
yet the generated tenet's title is the catalog requirement text — the
enrichment overrides the description instead of yielding to it. -/
theorem tenet_title_enrichment_overrides_description_cex :
    ((assessmentPlanToTenets wPlan6 wPolicy5 wOptions6).map fun r =>
        r.1.map Tenet.title) = .ok ["Requirement text"] ∧
    wPlan6.evaluationMethods.map (fun m => m.description) = ["Method description"] ∧
    ("Requirement text" : String) ≠ "Method description" :=
  ⟨by rfl, by rfl, by decide⟩

/-- The tenet generated in the C6 scenario. -/
def wTenet6 : Tenet :=
  { id := "REQ-9-plan-9-0", title := "Requirement text", runtime := "cel@v14.0",
    predicates := none, code := "attestation.predicate.<no value> == \"<no value>\"",
    outputs := [], error := none, assessment := none }

/-- The enrichment resolved in the C6 scenario. -/
def wEnrichment6 : CatalogEnrichment :=
  { control := some wControl6,
    requirement := some { id := "REQ-9", text := "Requirement text" },
    family := some { id := "FAM-1", title := "Family title" } }

theorem tenet_title_cascade_witness :
    (assessmentPlanToTenets wPlan6 wPolicy5 wOptions6 = .ok ([wTenet6], [wEnrichment6]) ∧
      wTenet6 ∈ [wTenet6]) ∧
    (∃ m ∈ wPlan6.evaluationMethods, isAutomatedMethod m.type = true ∧
      wTenet6.title = titleCascade (planEnrichment wPlan6 wOptions6) m
        wPlan6.evidenceRequirements) :=
  ⟨⟨by rfl, by decide⟩,
   tenet_title_cascade wPlan6 wPolicy5 wOptions6 [wTenet6] [wEnrichment6]
     (by rfl) wTenet6 (by decide)⟩

end Ampel
